import Mathlib

set_option allowUnsafeReducibility true
attribute [semireducible] Rat.mul Rat.add Rat.sub Rat.inv Rat.ofScientific Rat.div

/-!
Shallow embedding of the streaming VAD state machine found in
silero_vad_mindspore/utils.py: the VADIterator class (constructor,
reset_states, call) and the FixedVADIterator subclass (reset_states,
call).  The external neural model (the Probability Source) is abstracted
as a function from an audio chunk and a sampling rate to a speech
probability.  Python floats are modelled as rationals, Python ints as
integers; int() truncation toward zero and round(x, 1) half-to-even
rounding are modelled explicitly.  Python truthiness of temp_end (an
integer) is the test temp_end = 0 versus temp_end ~= 0.
-/

/-- An audio chunk: one-dimensional, or two-dimensional with an explicit
first row (the code reads the length of the first row of a 2-d tensor).
Samples are rationals. -/
inductive Chunk where
  | one (xs : List ℚ)
  | two (row0 : List ℚ) (rows : List (List ℚ))
deriving DecidableEq

/-- window_size_samples = len of the first row for a 2-d chunk, else len. -/
def windowSize : Chunk → ℕ
  | .one xs => xs.length
  | .two row0 _ => row0.length

/-- Inputs to call: already a framework tensor, castable to one (for
example a numpy array), or uncastable. -/
inductive AudioInput where
  | tensor (c : Chunk)
  | array (c : Chunk)
  | uncastable
deriving DecidableEq

/-- The coercion step at the top of call: a tensor passes through, a
castable value is cast, anything else fails. -/
def coerceTensor : AudioInput → Option Chunk
  | .tensor c => some c
  | .array c => some c
  | .uncastable => none

/-- Python exceptions raised by the code. -/
inductive PyError where
  | valueError (msg : String)
  | typeError (msg : String)
deriving DecidableEq

/-- A boundary event: the dict returned by call, keyed start or end. -/
inductive Event where
  | start (pos : ℚ)
  | end_ (pos : ℚ)
deriving DecidableEq

/-- Python int() truncation toward zero. -/
def pyInt (q : ℚ) : ℤ := if 0 ≤ q then q.floor else q.ceil

/-- Python round() to an integer: round half to even. -/
def pyRoundInt (q : ℚ) : ℤ :=
  if q - q.floor < 1/2 then q.floor
  else if (1 : ℚ)/2 < q - q.floor then q.floor + 1
  else if q.floor % 2 = 0 then q.floor else q.floor + 1

/-- Python round(q, 1). -/
def pyRound1 (q : ℚ) : ℚ := (pyRoundInt (q * 10) : ℚ) / 10

/-- Position carried by an emitted event: int(pos) in sample mode,
round(pos / sampling_rate, 1) in seconds mode. -/
def emitPos (return_seconds : Bool) (sampling_rate : ℕ) (pos : ℚ) : ℚ :=
  if return_seconds then pyRound1 (pos / (sampling_rate : ℚ)) else (pyInt pos : ℚ)

/-- The VADIterator object: the model, the immutable configuration, and
the mutable segmenter state. -/
structure VADIterator where
  model : Chunk → ℕ → ℚ
  threshold : ℚ
  sampling_rate : ℕ
  min_silence_samples : ℚ
  speech_pad_samples : ℚ
  triggered : Bool
  temp_end : ℤ
  current_sample : ℤ

/-- The constructor: validates the sampling rate, derives the two sample
counts by true division, and applies reset_states to the state fields. -/
def VADIterator.init (model : Chunk → ℕ → ℚ) (threshold : ℚ)
    (sampling_rate : ℕ) (min_silence_duration_ms : ℕ) (speech_pad_ms : ℕ) :
    Except PyError VADIterator :=
  if sampling_rate ∈ [8000, 16000] then
    .ok { model := model, threshold := threshold, sampling_rate := sampling_rate
        , min_silence_samples := (sampling_rate : ℚ) * (min_silence_duration_ms : ℚ) / 1000
        , speech_pad_samples := (sampling_rate : ℚ) * (speech_pad_ms : ℚ) / 1000
        , triggered := false, temp_end := 0, current_sample := 0 }
  else
    .error (.valueError "VADIterator does not support sampling rates other than [8000, 16000]")

/-- reset_states: state fields back to initial values, configuration kept. -/
def VADIterator.reset_states (v : VADIterator) : VADIterator :=
  { v with triggered := false, temp_end := 0, current_sample := 0 }

/-- The body of call once the tensor coercion has succeeded: increment
current_sample, score, then the three hysteresis branches in source
order. -/
def VADIterator.step (v : VADIterator) (x : Chunk) (return_seconds : Bool) :
    VADIterator × Option Event :=
  let window_size_samples := windowSize x
  let current_sample := v.current_sample + (window_size_samples : ℤ)
  let speech_prob := v.model x v.sampling_rate
  let temp_end := if v.threshold ≤ speech_prob ∧ v.temp_end ≠ 0 then 0 else v.temp_end
  if v.threshold ≤ speech_prob ∧ v.triggered = false then
    let speech_start : ℚ := (current_sample : ℚ) - v.speech_pad_samples
    ({ v with current_sample, temp_end, triggered := true },
      some (.start (emitPos return_seconds v.sampling_rate speech_start)))
  else if speech_prob < v.threshold - 0.15 ∧ v.triggered = true then
    let temp_end := if temp_end = 0 then current_sample else temp_end
    if (current_sample : ℚ) - (temp_end : ℚ) < v.min_silence_samples then
      ({ v with current_sample, temp_end }, none)
    else
      let speech_end : ℚ := (temp_end : ℚ) + v.speech_pad_samples
      ({ v with current_sample, temp_end := 0, triggered := false },
        some (.end_ (emitPos return_seconds v.sampling_rate speech_end)))
  else
    ({ v with current_sample, temp_end }, none)

/-- call: coerce the input (raising TypeError on failure, before any state
change), then run the state machine step. -/
def VADIterator.call (v : VADIterator) (x : AudioInput) (return_seconds : Bool) :
    Except PyError (VADIterator × Option Event) :=
  match coerceTensor x with
  | none => .error (.typeError "Audio cannot be casted to tensor. Cast it manually")
  | some c => .ok (v.step c return_seconds)

/-- The FixedVADIterator subclass: the wrapped iterator state plus the
accumulation buffer. -/
structure FixedVADIterator where
  vad : VADIterator
  buffer : List ℚ

/-- FixedVADIterator.reset_states: reset the parent state and clear the
buffer. -/
def FixedVADIterator.reset_states (f : FixedVADIterator) : FixedVADIterator :=
  { vad := f.vad.reset_states, buffer := [] }

/-- FixedVADIterator.call: append to the buffer; if at least 512 samples
are buffered, forward the whole buffer (a numpy array, hence a castable
input) to the parent call and clear the buffer, else return nothing. -/
def FixedVADIterator.call (f : FixedVADIterator) (x : List ℚ) (return_seconds : Bool) :
    Except PyError (FixedVADIterator × Option Event) :=
  let buffer := f.buffer ++ x
  if 512 ≤ buffer.length then
    match f.vad.call (.array (.one buffer)) return_seconds with
    | .error e => .error e
    | .ok (v, ret) => .ok ({ vad := v, buffer := [] }, ret)
  else
    .ok ({ f with buffer }, none)

/-- Run a list of chunks through successive step calls, returning the
final state and the per-call results in order. -/
def runChunks (v : VADIterator) (xs : List Chunk) (return_seconds : Bool) :
    VADIterator × List (Option Event) :=
  match xs with
  | [] => (v, [])
  | x :: rest =>
    let r := v.step x return_seconds
    let t := runChunks r.1 rest return_seconds
    (t.1, r.2 :: t.2)

/-- Recognizes an End event among per-call results. -/
def isEnd : Option Event → Bool
  | some (.end_ _) => true
  | _ => false

/-- Number of End events in a list of per-call results. -/
def countEnd (l : List (Option Event)) : ℕ := l.countP isEnd

/-- Total number of samples in a list of chunks. -/
def sumW (xs : List Chunk) : ℕ := (xs.map windowSize).sum

/-- A concrete probability source for witnesses: the probability is the
first sample of the chunk. -/
def witModel : Chunk → ℕ → ℚ
  | .one xs, _ => xs.headD 0
  | .two r _, _ => r.headD 0

/-- A concrete iterator in the just-constructed state (the configuration
that init with default arguments produces). -/
def witVad : VADIterator :=
  { model := witModel, threshold := 1/2, sampling_rate := 16000
  , min_silence_samples := 1600, speech_pad_samples := 480
  , triggered := false, temp_end := 0, current_sample := 0 }

/-- A concrete triggered iterator with a pending tentative end. -/
def witVad3 : VADIterator :=
  { witVad with triggered := true, temp_end := 2, current_sample := 5 }

/-- A concrete triggered iterator with no pending tentative end. -/
def witVad4 : VADIterator :=
  { witVad with triggered := true, temp_end := 0, current_sample := 5 }

/-- A concrete triggered iterator with a short silence requirement. -/
def witVad1 : VADIterator :=
  { witVad with triggered := true, temp_end := 0, current_sample := 5,
                min_silence_samples := 1, speech_pad_samples := 2 }

/-- A concrete adapter with an empty buffer. -/
def witFix : FixedVADIterator := { vad := witVad, buffer := [] }

/- Simp lemmas for the End-event counter and the sample totals. -/

@[simp] theorem countEnd_nil : countEnd [] = 0 := rfl

@[simp] theorem countEnd_cons_none (l : List (Option Event)) :
    countEnd (none :: l) = countEnd l := by
  simp [countEnd, List.countP_cons, isEnd]

@[simp] theorem countEnd_cons_start (q : ℚ) (l : List (Option Event)) :
    countEnd (some (.start q) :: l) = countEnd l := by
  simp [countEnd, List.countP_cons, isEnd]

@[simp] theorem countEnd_cons_end (q : ℚ) (l : List (Option Event)) :
    countEnd (some (.end_ q) :: l) = countEnd l + 1 := by
  simp [countEnd, List.countP_cons, isEnd]

@[simp] theorem countEnd_replicate_none (n : ℕ) :
    countEnd (List.replicate n none) = 0 := by
  induction n with
  | zero => rfl
  | succ n ih => simp [List.replicate_succ, ih]

@[simp] theorem sumW_nil : sumW [] = 0 := rfl

@[simp] theorem sumW_cons (x : Chunk) (l : List Chunk) :
    sumW (x :: l) = windowSize x + sumW l := by
  simp [sumW]

theorem sumW_append (a b : List Chunk) : sumW (a ++ b) = sumW a + sumW b := by
  simp [sumW]

/- Characterization of a single step, one lemma per branch of the
hysteresis logic. -/

theorem step_start (v : VADIterator) (x : Chunk) (rs : Bool)
    (h1 : v.threshold ≤ v.model x v.sampling_rate) (h2 : v.triggered = false) :
    v.step x rs =
      ({ v with current_sample := v.current_sample + (windowSize x : ℤ)
              , temp_end := 0, triggered := true },
        some (.start (emitPos rs v.sampling_rate
          (((v.current_sample + (windowSize x : ℤ) : ℤ) : ℚ) - v.speech_pad_samples)))) := by
  by_cases hte : v.temp_end = 0 <;>
    simp [VADIterator.step, h1, h2, hte]

theorem step_cancel (v : VADIterator) (x : Chunk) (rs : Bool)
    (h1 : v.threshold ≤ v.model x v.sampling_rate) (h2 : v.triggered = true) :
    v.step x rs =
      ({ v with current_sample := v.current_sample + (windowSize x : ℤ), temp_end := 0 }, none) := by
  have h3 : ¬ (v.model x v.sampling_rate < v.threshold - 0.15) := by
    have : (0 : ℚ) < 0.15 := by norm_num
    intro h
    linarith
  by_cases hte : v.temp_end = 0 <;>
    simp [VADIterator.step, h1, h2, h3, hte]

theorem step_nostart_low (v : VADIterator) (x : Chunk) (rs : Bool)
    (h1 : v.model x v.sampling_rate < v.threshold) (h2 : v.triggered = false) :
    v.step x rs =
      ({ v with current_sample := v.current_sample + (windowSize x : ℤ) }, none) := by
  have h1' : ¬ v.threshold ≤ v.model x v.sampling_rate := not_le.mpr h1
  simp [VADIterator.step, h1', h2]

theorem step_dip_pending (v : VADIterator) (x : Chunk) (rs : Bool)
    (h1 : v.model x v.sampling_rate < v.threshold - 0.15)
    (h2 : v.triggered = true) (h3 : v.temp_end ≠ 0)
    (h4 : ((v.current_sample + (windowSize x : ℤ) : ℤ) : ℚ) - (v.temp_end : ℚ) < v.min_silence_samples) :
    v.step x rs =
      ({ v with current_sample := v.current_sample + (windowSize x : ℤ) }, none) := by
  have h1' : ¬ v.threshold ≤ v.model x v.sampling_rate := by
    have : (0 : ℚ) < 0.15 := by norm_num
    intro h
    linarith
  simp [VADIterator.step, h1', h1, h2, h3, h4]
  push_cast at h4 ⊢
  linarith

theorem step_dip_fire (v : VADIterator) (x : Chunk) (rs : Bool)
    (h1 : v.model x v.sampling_rate < v.threshold - 0.15)
    (h2 : v.triggered = true) (h3 : v.temp_end ≠ 0)
    (h4 : v.min_silence_samples ≤ ((v.current_sample + (windowSize x : ℤ) : ℤ) : ℚ) - (v.temp_end : ℚ)) :
    v.step x rs =
      ({ v with current_sample := v.current_sample + (windowSize x : ℤ)
              , temp_end := 0, triggered := false },
        some (.end_ (emitPos rs v.sampling_rate ((v.temp_end : ℚ) + v.speech_pad_samples)))) := by
  have h1' : ¬ v.threshold ≤ v.model x v.sampling_rate := by
    have : (0 : ℚ) < 0.15 := by norm_num
    intro h
    linarith
  have h4' : ¬ (((v.current_sample + (windowSize x : ℤ) : ℤ) : ℚ) - (v.temp_end : ℚ) < v.min_silence_samples) :=
    not_lt.mpr h4
  simp [VADIterator.step, h1', h1, h2, h3, h4']
  push_cast at h4 ⊢
  linarith

theorem step_dip_set_pending (v : VADIterator) (x : Chunk) (rs : Bool)
    (h1 : v.model x v.sampling_rate < v.threshold - 0.15)
    (h2 : v.triggered = true) (h3 : v.temp_end = 0)
    (h4 : 0 < v.min_silence_samples) :
    v.step x rs =
      ({ v with current_sample := v.current_sample + (windowSize x : ℤ)
              , temp_end := v.current_sample + (windowSize x : ℤ) }, none) := by
  have h1' : ¬ v.threshold ≤ v.model x v.sampling_rate := by
    have : (0 : ℚ) < 0.15 := by norm_num
    intro h
    linarith
  simp [VADIterator.step, h1', h1, h2, h3, h4]

theorem step_dip_set_fire (v : VADIterator) (x : Chunk) (rs : Bool)
    (h1 : v.model x v.sampling_rate < v.threshold - 0.15)
    (h2 : v.triggered = true) (h3 : v.temp_end = 0)
    (h4 : v.min_silence_samples ≤ 0) :
    v.step x rs =
      ({ v with current_sample := v.current_sample + (windowSize x : ℤ)
              , temp_end := 0, triggered := false },
        some (.end_ (emitPos rs v.sampling_rate
          (((v.current_sample + (windowSize x : ℤ) : ℤ) : ℚ) + v.speech_pad_samples)))) := by
  have h1' : ¬ v.threshold ≤ v.model x v.sampling_rate := by
    have : (0 : ℚ) < 0.15 := by norm_num
    intro h
    linarith
  have h4' : ¬ (((v.current_sample + (windowSize x : ℤ) : ℤ) : ℚ) - ((v.current_sample + (windowSize x : ℤ) : ℤ) : ℚ) < v.min_silence_samples) := by
    simp
    linarith
  simp [VADIterator.step, h1', h1, h2, h3, h4']
  exact h4

theorem step_current_sample (v : VADIterator) (x : Chunk) (rs : Bool) :
    (v.step x rs).1.current_sample = v.current_sample + (windowSize x : ℤ) := by
  unfold VADIterator.step
  dsimp only
  split_ifs <;> rfl

/-- Claim C2: when the speech probability is at least the threshold and
triggered is false, the call sets triggered to true (also clearing
temp_end) and returns a Start event at current_sample -
speech_pad_samples, with current_sample already incremented by the chunk
just consumed; the position is the truncated integer sample index in
sample mode and round(position / sampling_rate, 1) in seconds mode. -/
theorem C2_start_event (v : VADIterator) (x : Chunk) (rs : Bool)
    (h1 : v.threshold ≤ v.model x v.sampling_rate) (h2 : v.triggered = false) :
    v.step x rs =
      ({ v with current_sample := v.current_sample + (windowSize x : ℤ),
                temp_end := 0, triggered := true },
        some (.start (if rs then
            pyRound1 ((((v.current_sample + (windowSize x : ℤ) : ℤ) : ℚ) - v.speech_pad_samples)
              / (v.sampling_rate : ℚ))
          else
            (pyInt (((v.current_sample + (windowSize x : ℤ) : ℤ) : ℚ) - v.speech_pad_samples) : ℚ)))) := by
  rw [step_start v x rs h1 h2]
  unfold emitPos
  rfl

/-- Witness for C2 at a concrete triggered-off iterator and a high
probability chunk. -/
theorem C2_start_event_witness :
    (witVad.step (.one [9/10]) false).2 = some (.start (-479)) := by
  rw [C2_start_event witVad (.one [9/10]) false (by decide) rfl]
  decide

/-- Claim C3: when the speech probability is at least the threshold and a
tentative end is pending, the call clears temp_end and does not emit an
End event, cancelling the pending end. -/
theorem C3_cancel_pending_end (v : VADIterator) (x : Chunk) (rs : Bool)
    (h1 : v.threshold ≤ v.model x v.sampling_rate) (h2 : v.temp_end ≠ 0) :
    (v.step x rs).1.temp_end = 0 ∧ ∀ q, (v.step x rs).2 ≠ some (.end_ q) := by
  cases htr : v.triggered
  · rw [step_start v x rs h1 htr]
    exact ⟨rfl, fun q h => by simp at h⟩
  · rw [step_cancel v x rs h1 htr]
    exact ⟨rfl, fun q h => by simp at h⟩

/-- Witness for C3 at a concrete pending-end iterator. -/
theorem C3_cancel_pending_end_witness :
    (witVad3.step (.one [9/10]) false).1.temp_end = 0 :=
  (C3_cancel_pending_end witVad3 (.one [9/10]) false (by decide) (by decide)).1

/-- Claim C4 as amended: when the speech probability is below threshold -
0.15, triggered is true and temp_end is unset, the call records temp_end
= current_sample; it returns no event on that same call provided
min_silence_samples is positive.  (When min_silence_samples = 0 the very
same call already emits the End event, see the counterexample.) -/
theorem C4_set_tentative_end (v : VADIterator) (x : Chunk) (rs : Bool)
    (h1 : v.model x v.sampling_rate < v.threshold - 0.15)
    (h2 : v.triggered = true) (h3 : v.temp_end = 0)
    (h4 : 0 < v.min_silence_samples) :
    v.step x rs =
      ({ v with current_sample := v.current_sample + (windowSize x : ℤ),
                temp_end := v.current_sample + (windowSize x : ℤ) }, none) :=
  step_dip_set_pending v x rs h1 h2 h3 h4

/-- Witness for C4's amended statement at a concrete triggered iterator. -/
theorem C4_set_tentative_end_witness :
    (witVad4.step (.one [0]) false).1.temp_end = 6
    ∧ (witVad4.step (.one [0]) false).2 = none := by
  rw [C4_set_tentative_end witVad4 (.one [0]) false (by decide) rfl rfl (by decide)]
  exact ⟨rfl, rfl⟩

/-- Counterexample to C4 as stated: with the valid configuration
sampling_rate = 16000, min_silence_duration_ms = 0 (so
min_silence_samples = 0), a triggered iterator with temp_end unset that
sees a probability below threshold - 0.15 returns an End event on the
very call that sets temp_end, not nothing. -/
theorem C4_counterexample :
    (VADIterator.init witModel (1/2) 16000 0 30).toOption.map (fun v =>
      ((v.step (.one [9/10]) false).1.triggered,
       (v.step (.one [9/10]) false).1.temp_end,
       (v.step (.one [9/10]) false).1.min_silence_samples,
       ((v.step (.one [9/10]) false).1.step (.one [1/10]) false).2))
    = some (true, 0, 0, some (.end_ 482)) := by decide

/-- Claim C7: an input that cannot be coerced to the required tensor form
makes the call fail with the TypeError; the coercion precedes the
current_sample increment and every other state change, so no new
state is produced and the caller's state is untouched. -/
theorem C7_uncastable_input (v : VADIterator) (inp : AudioInput) (rs : Bool)
    (h : coerceTensor inp = none) :
    v.call inp rs = .error (.typeError "Audio cannot be casted to tensor. Cast it manually") := by
  unfold VADIterator.call
  rw [h]

/-- Witness for C7 at the uncastable input. -/
theorem C7_uncastable_input_witness :
    witVad.call .uncastable false
      = .error (.typeError "Audio cannot be casted to tensor. Cast it manually") :=
  C7_uncastable_input witVad .uncastable false rfl

/-- Claim C8: construction with a sampling rate outside 8000 and 16000
fails with the ValueError; no iterator value is produced. -/
theorem C8_bad_sampling_rate (m : Chunk → ℕ → ℚ) (thr : ℚ) (sr ms pad : ℕ)
    (h1 : sr ≠ 8000) (h2 : sr ≠ 16000) :
    VADIterator.init m thr sr ms pad
      = .error (.valueError "VADIterator does not support sampling rates other than [8000, 16000]") := by
  unfold VADIterator.init
  simp [h1, h2]

/-- Witness for C8 at the 44100 sampling rate. -/
theorem C8_bad_sampling_rate_witness :
    VADIterator.init witModel (1/2) 44100 100 30
      = .error (.valueError "VADIterator does not support sampling rates other than [8000, 16000]") :=
  C8_bad_sampling_rate witModel (1/2) 44100 100 30 (by decide) (by decide)

/-- Claim C9: reset_states restores triggered = false, temp_end unset and
current_sample = 0 from any state, leaves the whole configuration (model,
threshold, sampling rate, derived sample counts) unchanged, and the
adapter's reset also clears the buffer while resetting the wrapped
iterator. -/
theorem C9_reset_states (v : VADIterator) (f : FixedVADIterator) :
    v.reset_states.triggered = false
    ∧ v.reset_states.temp_end = 0
    ∧ v.reset_states.current_sample = 0
    ∧ v.reset_states.model = v.model
    ∧ v.reset_states.threshold = v.threshold
    ∧ v.reset_states.sampling_rate = v.sampling_rate
    ∧ v.reset_states.min_silence_samples = v.min_silence_samples
    ∧ v.reset_states.speech_pad_samples = v.speech_pad_samples
    ∧ f.reset_states.buffer = []
    ∧ f.reset_states.vad = f.vad.reset_states :=
  ⟨rfl, rfl, rfl, rfl, rfl, rfl, rfl, rfl, rfl, rfl⟩

/- Trace-level lemmas about runChunks. -/

theorem runChunks_current_sample (xs : List Chunk) (v : VADIterator) (rs : Bool) :
    (runChunks v xs rs).1.current_sample = v.current_sample + (sumW xs : ℤ) := by
  induction xs generalizing v with
  | nil => simp [runChunks]
  | cons x rest ih =>
    simp only [runChunks]
    rw [ih, step_current_sample]
    push_cast [sumW_cons]
    ring

/-- Claim C6: starting from current_sample = 0 (construction or reset),
after processing a list of chunks current_sample equals the total number
of samples of the chunks (first-row count for 2-d chunks), and
current_sample never decreases from one call to the next. -/
theorem C6_current_sample_total (v : VADIterator) (xs : List Chunk) (rs : Bool)
    (h : v.current_sample = 0) :
    (runChunks v xs rs).1.current_sample = (sumW xs : ℤ)
    ∧ ∀ n : ℕ, (runChunks v (xs.take n) rs).1.current_sample
        ≤ (runChunks v (xs.take (n + 1)) rs).1.current_sample := by
  constructor
  · rw [runChunks_current_sample, h, zero_add]
  · intro n
    rw [runChunks_current_sample, runChunks_current_sample]
    have hle : sumW (xs.take n) ≤ sumW (xs.take (n + 1)) := by
      rw [List.take_succ, sumW_append]
      exact Nat.le_add_right _ _
    omega

/-- Witness for C6 on a concrete two-chunk trace with a 2-d chunk. -/
theorem C6_current_sample_total_witness :
    (runChunks witVad [.one [1/4], .two [0, 0] [[1, 2]]] false).1.current_sample
      = (sumW [.one [1/4], .two [0, 0] [[1, 2]]] : ℤ) :=
  (C6_current_sample_total witVad [.one [1/4], .two [0, 0] [[1, 2]]] false rfl).1

/-- One step preserves the invariant that a set temp_end implies
triggered. -/
theorem step_temp_end_triggered (v : VADIterator) (x : Chunk) (rs : Bool)
    (h : v.temp_end ≠ 0 → v.triggered = true) :
    (v.step x rs).1.temp_end ≠ 0 → (v.step x rs).1.triggered = true := by
  unfold VADIterator.step
  dsimp only
  split_ifs <;> intro hte <;> simp_all

theorem runChunks_temp_end_triggered (xs : List Chunk) (v : VADIterator) (rs : Bool)
    (h : v.temp_end ≠ 0 → v.triggered = true) :
    (runChunks v xs rs).1.temp_end ≠ 0 → (runChunks v xs rs).1.triggered = true := by
  induction xs generalizing v with
  | nil => exact h
  | cons x rest ih =>
    simp only [runChunks]
    exact ih _ (step_temp_end_triggered v x rs h)

/-- Claim C10: in every state reachable from a reset state by successful
calls, temp_end is set only if triggered is true; hence the cancellation
branch (probability at least threshold with temp_end set) and the Start
branch (probability at least threshold with triggered false) can never
both apply to the same call. -/
theorem C10_temp_end_only_if_triggered (v0 : VADIterator) (xs : List Chunk) (rs : Bool) :
    ((runChunks v0.reset_states xs rs).1.temp_end ≠ 0 →
      (runChunks v0.reset_states xs rs).1.triggered = true)
    ∧ ¬((runChunks v0.reset_states xs rs).1.temp_end ≠ 0
        ∧ (runChunks v0.reset_states xs rs).1.triggered = false) := by
  have hinv := runChunks_temp_end_triggered xs v0.reset_states rs (fun h => absurd rfl h)
  exact ⟨hinv, fun ⟨a, b⟩ => by rw [hinv a] at b; exact Bool.noConfusion b⟩

/-- Witness for C10 on a concrete trace that leaves temp_end set. -/
theorem C10_temp_end_only_if_triggered_witness :
    (runChunks witVad.reset_states [.one [9/10], .one [1/10]] false).1.triggered = true :=
  (C10_temp_end_only_if_triggered witVad [.one [9/10], .one [1/10]] false).1 (by decide)

/-- Claim C5: the adapter appends the incoming samples to its buffer in
order; below 512 buffered samples it returns nothing and keeps the
buffer; at 512 or more it forwards the entire accumulated buffer as one
chunk to the wrapped iterator's processing step (the cast from the numpy
buffer never fails, so no error can surface), clears the buffer to empty
whatever its length, and returns the wrapped iterator's result. -/
theorem C5_adapter_buffering (f : FixedVADIterator) (x : List ℚ) (rs : Bool) :
    ((f.buffer ++ x).length < 512 →
      f.call x rs = .ok ({ vad := f.vad, buffer := f.buffer ++ x }, none))
    ∧ (512 ≤ (f.buffer ++ x).length →
      f.call x rs = .ok
        ({ vad := (f.vad.step (.one (f.buffer ++ x)) rs).1, buffer := [] },
          (f.vad.step (.one (f.buffer ++ x)) rs).2)) := by
  constructor
  · intro h
    unfold FixedVADIterator.call
    rw [if_neg (by omega)]
  · intro h
    unfold FixedVADIterator.call VADIterator.call coerceTensor
    rw [if_pos h]

set_option maxRecDepth 8000 in
/-- Witness for C5: a short chunk is buffered without any event; a
512-sample chunk is flushed through the wrapped iterator with the buffer
cleared. -/
theorem C5_adapter_buffering_witness :
    witFix.call [1/4] false
      = .ok ({ vad := witFix.vad, buffer := witFix.buffer ++ [1/4] }, none)
    ∧ witFix.call (List.replicate 512 0) false
      = .ok ({ vad := (witFix.vad.step (.one (witFix.buffer ++ List.replicate 512 0)) false).1,
               buffer := [] },
          (witFix.vad.step (.one (witFix.buffer ++ List.replicate 512 0)) false).2) :=
  ⟨(C5_adapter_buffering witFix [1/4] false).1 (by decide),
   (C5_adapter_buffering witFix (List.replicate 512 0) false).2 (by simp [witFix])⟩

/-- With triggered off and every probability below the threshold, a run
produces no events at all and only advances current_sample. -/
theorem runChunks_ended (xs : List Chunk) (v : VADIterator) (rs : Bool)
    (h2 : v.triggered = false)
    (hlow : ∀ x ∈ xs, v.model x v.sampling_rate < v.threshold) :
    runChunks v xs rs =
      ({ v with current_sample := v.current_sample + (sumW xs : ℤ) },
        List.replicate xs.length none) := by
  induction xs generalizing v with
  | nil => simp [runChunks]
  | cons x rest ih =>
    simp only [runChunks]
    rw [step_nostart_low v x rs (hlow x (List.mem_cons_self x rest)) h2]
    rw [ih { v with current_sample := v.current_sample + (windowSize x : ℤ) } h2
        (fun y hy => hlow y (List.mem_cons_of_mem x hy))]
    simp only [List.length_cons, List.replicate_succ]
    have : v.current_sample + (windowSize x : ℤ) + (sumW rest : ℤ)
        = v.current_sample + (sumW (x :: rest) : ℤ) := by
      push_cast [sumW_cons]
      ring
    rw [this]

/-- During a dip (triggered, tentative end pending and not yet confirmed,
all probabilities below threshold - 0.15), the run emits exactly one End
event when the accumulated silence reaches min_silence_samples and none
otherwise. -/
theorem runChunks_dip_count (xs : List Chunk) (v : VADIterator) (rs : Bool)
    (htr : v.triggered = true) (hte : v.temp_end ≠ 0)
    (hpend : (v.current_sample : ℚ) - (v.temp_end : ℚ) < v.min_silence_samples)
    (hlow : ∀ x ∈ xs, v.model x v.sampling_rate < v.threshold - 0.15) :
    countEnd (runChunks v xs rs).2 =
      if v.min_silence_samples ≤
          (v.current_sample : ℚ) + (sumW xs : ℚ) - (v.temp_end : ℚ) then 1 else 0 := by
  induction xs generalizing v with
  | nil =>
    simp only [runChunks, countEnd_nil, sumW_nil]
    rw [if_neg]
    push_cast
    linarith
  | cons x rest ih =>
    have hx := hlow x (List.mem_cons_self x rest)
    by_cases hc : ((v.current_sample + (windowSize x : ℤ) : ℤ) : ℚ) - (v.temp_end : ℚ)
        < v.min_silence_samples
    · simp only [runChunks]
      rw [step_dip_pending v x rs hx htr hte hc]
      simp only [countEnd_cons_none]
      rw [ih { v with current_sample := v.current_sample + (windowSize x : ℤ) }
            htr hte hc (fun y hy => hlow y (List.mem_cons_of_mem x hy))]
      have hexp : ((v.current_sample + (windowSize x : ℤ) : ℤ) : ℚ) + (sumW rest : ℚ)
            - (v.temp_end : ℚ)
          = (v.current_sample : ℚ) + (sumW (x :: rest) : ℚ) - (v.temp_end : ℚ) := by
        push_cast [sumW_cons]
        ring
      exact if_congr (by rw [hexp]) rfl rfl
    · simp only [runChunks]
      rw [step_dip_fire v x rs hx htr hte (not_lt.mp hc)]
      rw [runChunks_ended rest _ rs rfl
            (fun y hy => by
              have := hlow y (List.mem_cons_of_mem x hy)
              have h015 : (0 : ℚ) < 0.15 := by norm_num
              linarith)]
      simp only [countEnd_cons_end, countEnd_replicate_none, zero_add]
      rw [if_pos]
      have h1 := not_lt.mp hc
      have h2 : (0 : ℚ) ≤ (sumW rest : ℚ) := Nat.cast_nonneg _
      push_cast [sumW_cons] at h1 ⊢
      linarith

/-- During a dip every event the run emits is an End event positioned at
temp_end + speech_pad_samples. -/
theorem runChunks_dip_pos (xs : List Chunk) (v : VADIterator) (rs : Bool)
    (htr : v.triggered = true) (hte : v.temp_end ≠ 0)
    (hlow : ∀ x ∈ xs, v.model x v.sampling_rate < v.threshold - 0.15) :
    ∀ o ∈ (runChunks v xs rs).2, ∀ e, o = some e →
      e = Event.end_ (emitPos rs v.sampling_rate ((v.temp_end : ℚ) + v.speech_pad_samples)) := by
  induction xs generalizing v with
  | nil => intro o ho
           simp [runChunks] at ho
  | cons x rest ih =>
    have hx := hlow x (List.mem_cons_self x rest)
    intro o ho e hoe
    by_cases hc : ((v.current_sample + (windowSize x : ℤ) : ℤ) : ℚ) - (v.temp_end : ℚ)
        < v.min_silence_samples
    · rw [show (runChunks v (x :: rest) rs).2
            = (v.step x rs).2 :: (runChunks (v.step x rs).1 rest rs).2 from rfl,
          step_dip_pending v x rs hx htr hte hc] at ho
      rcases List.mem_cons.mp ho with h | h
      · rw [h] at hoe
        cases hoe
      · exact ih { v with current_sample := v.current_sample + (windowSize x : ℤ) }
          htr hte (fun y hy => hlow y (List.mem_cons_of_mem x hy)) o h e hoe
    · rw [show (runChunks v (x :: rest) rs).2
            = (v.step x rs).2 :: (runChunks (v.step x rs).1 rest rs).2 from rfl,
          step_dip_fire v x rs hx htr hte (not_lt.mp hc)] at ho
      rcases List.mem_cons.mp ho with h | h
      · rw [h] at hoe
        cases hoe
        rfl
      · rw [runChunks_ended rest _ rs rfl
              (fun y hy => by
                have := hlow y (List.mem_cons_of_mem x hy)
                have h015 : (0 : ℚ) < 0.15 := by norm_num
                linarith)] at h
        have := List.eq_of_mem_replicate h
        rw [this] at hoe
        cases hoe

/-- During a dip, once the silence total reaches min_silence_samples the
final state has triggered cleared and temp_end unset. -/
theorem runChunks_dip_final (xs : List Chunk) (v : VADIterator) (rs : Bool)
    (htr : v.triggered = true) (hte : v.temp_end ≠ 0)
    (hpend : (v.current_sample : ℚ) - (v.temp_end : ℚ) < v.min_silence_samples)
    (hlow : ∀ x ∈ xs, v.model x v.sampling_rate < v.threshold - 0.15)
    (hfired : v.min_silence_samples ≤
      (v.current_sample : ℚ) + (sumW xs : ℚ) - (v.temp_end : ℚ)) :
    (runChunks v xs rs).1.triggered = false ∧ (runChunks v xs rs).1.temp_end = 0 := by
  induction xs generalizing v with
  | nil =>
    exfalso
    simp only [sumW_nil, Nat.cast_zero, add_zero] at hfired
    linarith
  | cons x rest ih =>
    have hx := hlow x (List.mem_cons_self x rest)
    by_cases hc : ((v.current_sample + (windowSize x : ℤ) : ℤ) : ℚ) - (v.temp_end : ℚ)
        < v.min_silence_samples
    · simp only [runChunks]
      rw [step_dip_pending v x rs hx htr hte hc]
      refine ih { v with current_sample := v.current_sample + (windowSize x : ℤ) }
        htr hte hc (fun y hy => hlow y (List.mem_cons_of_mem x hy)) ?_
      push_cast [sumW_cons] at hfired ⊢
      linarith
    · simp only [runChunks]
      rw [step_dip_fire v x rs hx htr hte (not_lt.mp hc)]
      rw [runChunks_ended rest _ rs rfl
            (fun y hy => by
              have := hlow y (List.mem_cons_of_mem x hy)
              have h015 : (0 : ℚ) < 0.15 := by norm_num
              linarith)]
      exact ⟨rfl, rfl⟩


@[simp] theorem getD_replicate_none (n k : ℕ) :
    (List.replicate n (none : Option Event)).getD k none = none := by
  induction n generalizing k with
  | zero => simp [List.getD]
  | succ n ih => cases k <;> simp [List.replicate_succ, ih]

/-- During a dip, an event can only appear at the first call whose
accumulated silence reaches min_silence_samples: the reaching call, with
every earlier call still short of it. -/
theorem runChunks_dip_first (xs : List Chunk) (v : VADIterator) (rs : Bool)
    (htr : v.triggered = true) (hte : v.temp_end ≠ 0)
    (hlow : ∀ x ∈ xs, v.model x v.sampling_rate < v.threshold - 0.15) :
    ∀ k, (runChunks v xs rs).2.getD k none ≠ none →
      (v.min_silence_samples ≤
          (v.current_sample : ℚ) + (sumW (xs.take (k + 1)) : ℚ) - (v.temp_end : ℚ)
        ∧ ∀ j < k, (v.current_sample : ℚ) + (sumW (xs.take (j + 1)) : ℚ) - (v.temp_end : ℚ)
            < v.min_silence_samples) := by
  induction xs generalizing v with
  | nil =>
    intro k hk
    simp [runChunks, List.getD] at hk
  | cons x rest ih =>
    have hx := hlow x (List.mem_cons_self x rest)
    intro k hne
    by_cases hc : ((v.current_sample + (windowSize x : ℤ) : ℤ) : ℚ) - (v.temp_end : ℚ)
        < v.min_silence_samples
    · rw [show (runChunks v (x :: rest) rs).2
            = (v.step x rs).2 :: (runChunks (v.step x rs).1 rest rs).2 from rfl,
          step_dip_pending v x rs hx htr hte hc] at hne
      match k with
      | 0 => exact (hne (by simp)).elim
      | k + 1 =>
        have hne' : (runChunks { v with current_sample := v.current_sample + (windowSize x : ℤ) } rest rs).2.getD k none ≠ none := by
          simpa using hne
        obtain ⟨ha, hb⟩ := ih { v with current_sample := v.current_sample + (windowSize x : ℤ) }
          htr hte (fun y hy => hlow y (List.mem_cons_of_mem x hy)) k hne'
        constructor
        · rw [List.take_succ_cons, sumW_cons]
          push_cast at ha ⊢
          linarith
        · intro j hj
          match j with
          | 0 =>
            rw [List.take_succ_cons, List.take_zero, sumW_cons, sumW_nil]
            push_cast at hc ⊢
            linarith
          | j + 1 =>
            have := hb j (Nat.lt_of_succ_lt_succ hj)
            rw [List.take_succ_cons, sumW_cons]
            push_cast at this ⊢
            linarith
    · rw [show (runChunks v (x :: rest) rs).2
            = (v.step x rs).2 :: (runChunks (v.step x rs).1 rest rs).2 from rfl,
          step_dip_fire v x rs hx htr hte (not_lt.mp hc),
          runChunks_ended rest _ rs rfl
            (fun y hy => by
              have := hlow y (List.mem_cons_of_mem x hy)
              have h015 : (0 : ℚ) < 0.15 := by norm_num
              linarith)] at hne
      match k with
      | 0 =>
        refine ⟨?_, fun j hj => absurd hj (Nat.not_lt_zero j)⟩
        rw [List.take_succ_cons, List.take_zero, sumW_cons, sumW_nil]
        have := not_lt.mp hc
        push_cast at this ⊢
        linarith
      | k + 1 =>
        exfalso
        exact hne (by simp)

/-- Claim C1: from a triggered state with no pending end, a run whose
probabilities all stay below threshold - 0.15 emits exactly one End event
when the silence accumulated after temp_end was set (on the first call of
the dip) reaches min_silence_samples, and zero End events when the run
ends before that; any emitted event is an End at temp_end +
speech_pad_samples (temp_end being current_sample after the first dip
call); the firing call leaves triggered false and temp_end cleared; and
an event can only sit at the first call whose accumulated silence reaches
min_silence_samples. -/
theorem C1_end_event (v : VADIterator) (rs : Bool) (x : Chunk) (rest : List Chunk)
    (htr : v.triggered = true) (hte : v.temp_end = 0) (hcs : 0 < v.current_sample)
    (hlow : ∀ y ∈ x :: rest, v.model y v.sampling_rate < v.threshold - 0.15) :
    countEnd (runChunks v (x :: rest) rs).2
      = (if v.min_silence_samples ≤ (sumW rest : ℚ) then 1 else 0)
    ∧ (∀ o ∈ (runChunks v (x :: rest) rs).2, ∀ e, o = some e →
        e = Event.end_ (emitPos rs v.sampling_rate
          ((v.current_sample : ℚ) + (windowSize x : ℚ) + v.speech_pad_samples)))
    ∧ (v.min_silence_samples ≤ (sumW rest : ℚ) →
        (runChunks v (x :: rest) rs).1.triggered = false
        ∧ (runChunks v (x :: rest) rs).1.temp_end = 0)
    ∧ (∀ k, (runChunks v (x :: rest) rs).2.getD k none ≠ none →
        (v.min_silence_samples ≤ (sumW (rest.take k) : ℚ)
         ∧ ∀ j < k, (sumW (rest.take j) : ℚ) < v.min_silence_samples)) := by
  have hx := hlow x (List.mem_cons_self x rest)
  have hlow1 : ∀ y ∈ rest, v.model y v.sampling_rate < v.threshold - 0.15 :=
    fun y hy => hlow y (List.mem_cons_of_mem x hy)
  have hcs' : v.current_sample + (windowSize x : ℤ) ≠ 0 := by omega
  by_cases h0 : 0 < v.min_silence_samples
  · have hstep := step_dip_set_pending v x rs hx htr hte h0
    set w1 : VADIterator := { v with
      current_sample := v.current_sample + (windowSize x : ℤ),
      temp_end := v.current_sample + (windowSize x : ℤ) }
    have hw1tr : w1.triggered = true := htr
    have hw1te : w1.temp_end ≠ 0 := hcs'
    have hw1low : ∀ y ∈ rest, w1.model y w1.sampling_rate < w1.threshold - 0.15 := hlow1
    have hw1pend : (w1.current_sample : ℚ) - (w1.temp_end : ℚ) < w1.min_silence_samples := by
      show ((v.current_sample + (windowSize x : ℤ) : ℤ) : ℚ)
          - ((v.current_sample + (windowSize x : ℤ) : ℤ) : ℚ) < v.min_silence_samples
      simpa using h0
    have hcancel : ∀ s : ℚ, (w1.current_sample : ℚ) + s - (w1.temp_end : ℚ) = s := by
      intro s
      show ((v.current_sample + (windowSize x : ℤ) : ℤ) : ℚ) + s
          - ((v.current_sample + (windowSize x : ℤ) : ℤ) : ℚ) = s
      ring
    have hshape2 : (runChunks v (x :: rest) rs).2 = none :: (runChunks w1 rest rs).2 := by
      rw [show (runChunks v (x :: rest) rs).2
            = (v.step x rs).2 :: (runChunks (v.step x rs).1 rest rs).2 from rfl, hstep]
    have hshape1 : (runChunks v (x :: rest) rs).1 = (runChunks w1 rest rs).1 := by
      rw [show (runChunks v (x :: rest) rs).1
            = (runChunks (v.step x rs).1 rest rs).1 from rfl, hstep]
    refine ⟨?_, ?_, ?_, ?_⟩
    · rw [hshape2, countEnd_cons_none,
          runChunks_dip_count rest w1 rs hw1tr hw1te hw1pend hw1low, hcancel]
    · intro o ho e hoe
      rw [hshape2] at ho
      rcases List.mem_cons.mp ho with h | h
      · rw [h] at hoe
        cases hoe
      · have hpos := runChunks_dip_pos rest w1 rs hw1tr hw1te hw1low o h e hoe
        rw [hpos]
        exact congrArg Event.end_ (congrArg (emitPos rs v.sampling_rate) (by
          show ((v.current_sample + (windowSize x : ℤ) : ℤ) : ℚ) + v.speech_pad_samples
              = (v.current_sample : ℚ) + (windowSize x : ℚ) + v.speech_pad_samples
          push_cast
          ring))
    · intro hfin
      rw [hshape1]
      exact runChunks_dip_final rest w1 rs hw1tr hw1te hw1pend hw1low
        (by rw [hcancel]; exact hfin)
    · intro k hne
      rw [hshape2] at hne
      match k with
      | 0 => exact (hne (by simp)).elim
      | k + 1 =>
        have hne' : (runChunks w1 rest rs).2.getD k none ≠ none := by simpa using hne
        obtain ⟨ha, hb⟩ := runChunks_dip_first rest w1 rs hw1tr hw1te hw1low k hne'
        rw [hcancel] at ha
        refine ⟨ha, ?_⟩
        intro j hj
        match j with
        | 0 => simpa using h0
        | j + 1 =>
          have hlt := hb j (Nat.lt_of_succ_lt_succ hj)
          rw [hcancel] at hlt
          exact hlt
  · have hms0 : v.min_silence_samples ≤ 0 := not_lt.mp h0
    have hstep := step_dip_set_fire v x rs hx htr hte hms0
    set w2 : VADIterator := { v with
      current_sample := v.current_sample + (windowSize x : ℤ),
      temp_end := 0, triggered := false }
    have hlow2 : ∀ y ∈ rest, w2.model y w2.sampling_rate < w2.threshold := by
      intro y hy
      have hy' := hlow1 y hy
      have h015 : (0 : ℚ) < 0.15 := by norm_num
      show v.model y v.sampling_rate < v.threshold
      linarith
    have hrest := runChunks_ended rest w2 rs rfl hlow2
    have hshape2 : (runChunks v (x :: rest) rs).2
        = some (.end_ (emitPos rs v.sampling_rate
            (((v.current_sample + (windowSize x : ℤ) : ℤ) : ℚ) + v.speech_pad_samples)))
          :: List.replicate rest.length none := by
      rw [show (runChunks v (x :: rest) rs).2
            = (v.step x rs).2 :: (runChunks (v.step x rs).1 rest rs).2 from rfl, hstep]
      dsimp only
      rw [hrest]
    have hshape1 : (runChunks v (x :: rest) rs).1
        = { w2 with current_sample := w2.current_sample + (sumW rest : ℤ) } := by
      rw [show (runChunks v (x :: rest) rs).1
            = (runChunks (v.step x rs).1 rest rs).1 from rfl, hstep]
      dsimp only
      rw [hrest]
    refine ⟨?_, ?_, ?_, ?_⟩
    · rw [hshape2]
      simp only [countEnd_cons_end, countEnd_replicate_none, zero_add]
      rw [if_pos (le_trans hms0 (Nat.cast_nonneg _))]
    · intro o ho e hoe
      rw [hshape2] at ho
      rcases List.mem_cons.mp ho with h | h
      · rw [h] at hoe
        cases hoe
        exact congrArg Event.end_ (congrArg (emitPos rs v.sampling_rate) (by
          push_cast
          ring))
      · rw [List.eq_of_mem_replicate h] at hoe
        cases hoe
    · intro _
      rw [hshape1]
      exact ⟨rfl, rfl⟩
    · intro k hne
      rw [hshape2] at hne
      match k with
      | 0 =>
        refine ⟨?_, fun j hj => absurd hj (Nat.not_lt_zero j)⟩
        simpa using hms0
      | k + 1 => exact (hne (by simp)).elim

/-- Witness for C1 on a concrete dip of two low-probability chunks whose
second chunk reaches min_silence_samples, yielding exactly one End
event. -/
theorem C1_end_event_witness :
    countEnd (runChunks witVad1 [.one [0], .one [0]] false).2
      = (if witVad1.min_silence_samples ≤ (sumW [Chunk.one [0]] : ℚ) then 1 else 0) :=
  (C1_end_event witVad1 false (.one [0]) [.one [0]] rfl rfl (by decide) (by decide)).1
